import Mathlib

/-!
Shallow embedding of `src/ama.py` (audio_metadata_auditer).

Conventions of the embedding:
* Python floats are modelled as exact rationals.
* Python dicts with optional keys become structures whose possibly-missing
  entries are `Option` fields (`none` means the key is absent); string fields
  the source defaults to the empty string keep that default.
* The mutagen decoder is the external collaborator: a `FileModel` carries the
  outcome of decoding a file (`DecodeOutcome`), including the container
  specific `tags_map` that `to_uniform_dict` extracts at the adapter boundary
  (src/ama.py lines 295-348), the byte size from the filesystem, and the
  SHA-1 content hash (hashing itself is external; the model carries the
  digest that `sha1_of_file` would return).
* Python `str.lower`, `str.strip` and `str.split` are modelled on ASCII.
-/

namespace AMA

/-- Supported (lower-cased) audio file extensions, `SUPPORTED_EXTENSIONS`
in the source (line 38). -/
def SUPPORTED_EXTENSIONS : List String :=
  [".mp3", ".flac", ".ogg", ".oga", ".opus", ".wav", ".m4a", ".aac"]

/-- Numeric value of an ASCII digit character. -/
def digitVal (c : Char) : ℕ := c.toNat - 48

/-- Python `str.strip()` on the ASCII whitespace model: drop whitespace
from both ends. -/
def pyStrip (s : String) : String :=
  String.mk (((s.data.dropWhile Char.isWhitespace).reverse.dropWhile Char.isWhitespace).reverse)

/-- Python `str.lower()` on the ASCII model: lower-case every character. -/
def pyLower (s : String) : String :=
  String.mk (s.data.map Char.toLower)

/-- Python `str.split()` with no separator: the maximal whitespace-free
words of a string, in order. -/
def pyWords (cs : List Char) : List (List Char) :=
  (cs.foldr
    (fun c acc =>
      if c.isWhitespace then [] :: acc
      else
        match acc with
        | [] => [[c]]
        | w :: ws => (c :: w) :: ws)
    []).filter (fun w => w ≠ [])

/-- Remaining digits of a Python integer literal after the first digit,
with the single underscores Python `int` accepts between digits;
`acc` is the value read so far. -/
def parseDigitsRest (acc : ℕ) : List Char → Option ℕ
  | [] => some acc
  | c :: cs =>
    if c.isDigit then parseDigitsRest (acc * 10 + digitVal c) cs
    else if c = '_' then
      match cs with
      | d :: ds => if d.isDigit then parseDigitsRest (acc * 10 + digitVal d) ds else none
      | [] => none
    else none

/-- Body of a Python integer literal: one or more ASCII digits, single
underscores allowed between digits. -/
def parseDigits : List Char → Option ℕ
  | c :: cs => if c.isDigit then parseDigitsRest (digitVal c) cs else none
  | [] => none

/-- `safe_int` (src/ama.py lines 143-154): `int(str(value).strip())` with
`None` on failure, over the ASCII-decimal fragment of Python `int`. -/
def safe_int (value : String) : Option ℤ :=
  match (pyStrip value).data with
  | '+' :: rest => (parseDigits rest).map (fun n => (n : ℤ))
  | '-' :: rest => (parseDigits rest).map (fun n => -(n : ℤ))
  | l => (parseDigits l).map (fun n => (n : ℤ))

/-- Look a key up in an (insertion-ordered) tag mapping, mutagen style. -/
def tagGet (tags_map : List (String × List String)) (k : String) : Option (List String) :=
  (tags_map.find? (fun p => p.1 == k)).map (fun p => p.2)

/-- `first_tag_text` (lines 237-246): first available text value under the
first matching key whose value list is non-empty. -/
def first_tag_text (tags_map : List (String × List String)) : List String → String
  | [] => ""
  | k :: keys =>
    match tagGet tags_map k with
    | some (v :: _) => v
    | _ => first_tag_text tags_map keys

/-- The raw track value chosen by `parse_track_number` (lines 129-133):
the `TRCK` key first, then `TRACKNUMBER`, taking the first list entry of the
first key whose value list is non-empty. -/
def raw_track_value (tags_map : List (String × List String)) : Option String :=
  match tagGet tags_map "TRCK" with
  | some (v :: _) => some v
  | _ =>
    match tagGet tags_map "TRACKNUMBER" with
    | some (v :: _) => some v
    | _ => none

/-- Split a character list at the first slash, if there is one
(Python `raw_string.split("/", 1)` under the guard that a slash occurs). -/
def splitFirstSlash : List Char → Option (List Char × List Char)
  | [] => none
  | c :: cs =>
    if c = '/' then some ([], cs)
    else
      match splitFirstSlash cs with
      | some (l, r) => some (c :: l, r)
      | none => none

/-- `parse_track_number` (lines 121-141). -/
def parse_track_number (tags_map : List (String × List String)) : Option ℤ × Option ℤ :=
  match raw_track_value tags_map with
  | none => (none, none)
  | some rv =>
    if rv = "" then (none, none)
    else
      let raw_string := pyStrip rv
      match splitFirstSlash raw_string.data with
      | some (l, r) => (safe_int (String.mk l), safe_int (String.mk r))
      | none => (safe_int raw_string, none)

/-- `canonicalize_string` (lines 157-167): trimmed, lower-cased,
single-spaced. -/
def canonicalize_string (value : String) : String :=
  String.intercalate " " ((pyWords (pyLower (pyStrip value)).data).map String.mk)

/-- One audio file's normalized view: the uniform dictionary produced by
`to_uniform_dict` (lines 249-374).  `err` models the `"error"` key of the
three error-variant dictionaries; fields that those dictionaries omit are
`none` / empty here, matching `dict.get` on the absent keys. -/
structure TrackRecord where
  path : String
  file_name : String
  err : Option String
  container : Option String
  length_s : Option ℚ
  sample_rate : Option ℕ
  channels : Option ℕ
  bitrate : Option ℕ
  tags : List (String × List String)
  title : String
  album : String
  artist : String
  track_number : Option ℤ
  track_total : Option ℤ
  id3_version : Option String
  artwork_hashes : List String
  content_hash : Option String
  size_bytes : ℕ
deriving DecidableEq

/-- Outcome of asking the external mutagen decoder about one file: the three
failure modes caught in `to_uniform_dict` (lines 267-293), or a successful
decode.  A successful decode carries the lower-cased container class name,
the stream info, and the container-specific `tags_map`, artwork hashes and
ID3 version string that the adapter extracts from the mutagen objects
(lines 295-348); that extraction manipulates external decoder objects and is
therefore part of the collaborator model. -/
inductive DecodeOutcome where
  | errMp3
  | errGeneric
  | unrecognized
  | ok (container : String) (length_s : Option ℚ) (sample_rate : Option ℕ)
      (channels : Option ℕ) (bitrate : Option ℕ)
      (tags_map : List (String × List String))
      (artwork_hashes : List String) (id3_version : Option String)
deriving DecidableEq

/-- A file as the scan sees it: base name, size on disk, SHA-1 content
digest (`sha1_of_file`; `none` models a read failure), and the external
decoder's verdict. -/
structure FileModel where
  name : String
  size_bytes : ℕ
  content_hash : Option String
  decode : DecodeOutcome
deriving DecidableEq

/-- The error-variant dictionary shapes of `to_uniform_dict`
(lines 270-276, 278-284, 287-293): path, file name, error tag, content hash
and size; every other key is absent. -/
def errRecord (file_path fname e : String) (ch : Option String) (size : ℕ) : TrackRecord :=
  { path := file_path, file_name := fname, err := some e, container := none,
    length_s := none, sample_rate := none, channels := none, bitrate := none,
    tags := [], title := "", album := "", artist := "", track_number := none,
    track_total := none, id3_version := none, artwork_hashes := [],
    content_hash := ch, size_bytes := size }

/-- `to_uniform_dict` (lines 249-374) for a file whose decode outcome is
given by the model. -/
def to_uniform_dict (file_path : String) (f : FileModel) : TrackRecord :=
  match f.decode with
  | .errMp3 => errRecord file_path f.name "mp3_unreadable" f.content_hash f.size_bytes
  | .errGeneric => errRecord file_path f.name "unreadable" f.content_hash f.size_bytes
  | .unrecognized => errRecord file_path f.name "unrecognized" f.content_hash f.size_bytes
  | .ok container length_s sr ch br tags_map art id3v =>
    { path := file_path, file_name := f.name, err := none,
      container := some container, length_s := length_s, sample_rate := sr,
      channels := ch, bitrate := br, tags := tags_map,
      title := first_tag_text tags_map ["TIT2", "TITLE"],
      album := first_tag_text tags_map ["TALB", "ALBUM"],
      artist := first_tag_text tags_map ["TPE1", "ARTIST"],
      track_number := (parse_track_number tags_map).1,
      track_total := (parse_track_number tags_map).2,
      id3_version := id3v,
      artwork_hashes := art.filter (fun h => h ≠ ""),
      content_hash := f.content_hash, size_bytes := f.size_bytes }

/-- Comparison of character lists by code point, the order Python uses on
strings. -/
def strCmpL : List Char → List Char → Ordering
  | [], [] => .eq
  | [], _ :: _ => .lt
  | _ :: _, [] => .gt
  | a :: as, b :: bs =>
    if a < b then .lt else if b < a then .gt else strCmpL as bs

/-- Python string strict comparison `a < b` (code-point lexicographic). -/
def strLtB (a b : String) : Bool :=
  match strCmpL a.data b.data with
  | .lt => true
  | _ => false

/-- Insert into a list sorted by a string key, after any element with an
equal key: the insertion step of a stable sort (Python `list.sort` /
`sorted` are stable). -/
def insertByKey {α : Type} (k : α → String) (x : α) : List α → List α
  | [] => [x]
  | y :: ys => if strLtB (k x) (k y) then x :: y :: ys else y :: insertByKey k x ys

/-- Stable sort by a string key, modelling Python sorted with a key
function: elements are inserted left to right, each after its equals. -/
def sortByKey {α : Type} (k : α → String) (l : List α) : List α :=
  l.foldl (fun acc x => insertByKey k x acc) []

/-- Insert into an ascending duplicate-free list of naturals. -/
def insertSortedNatNoDup (x : ℕ) : List ℕ → List ℕ
  | [] => [x]
  | y :: ys =>
    if x < y then x :: y :: ys else if x = y then y :: ys else y :: insertSortedNatNoDup x ys

/-- Python `sorted(set(l))` for naturals: ascending, duplicate-free. -/
def sortedDistinctNat (l : List ℕ) : List ℕ :=
  l.foldl (fun acc x => insertSortedNatNoDup x acc) []

/-- Insert into an ascending duplicate-free list of strings. -/
def insertSortedStrNoDup (x : String) : List String → List String
  | [] => [x]
  | y :: ys =>
    if strLtB x y then x :: y :: ys else if x = y then y :: ys else y :: insertSortedStrNoDup x ys

/-- Python `sorted(set(l))` for strings: code-point ascending,
duplicate-free. -/
def sortedDistinctStr (l : List String) : List String :=
  l.foldl (fun acc x => insertSortedStrNoDup x acc) []

/-- Distinct values of a list in first-seen order (the key order of a
Python `Counter` / `dict` built by insertion). -/
def firstSeenDistinct : List String → List String
  | [] => []
  | x :: xs => x :: (firstSeenDistinct xs).filter (fun y => y ≠ x)

/-- Number of occurrences of a value in a list. -/
def countOcc (l : List String) (v : String) : ℕ :=
  (l.filter (fun x => x == v)).length

/-- `Counter(l).most_common(1)[0][0]`: a value of maximal count; ties are
broken by first insertion, which `Counter.most_common` preserves because its
sort is stable. -/
def mostCommon (l : List String) : Option String :=
  (firstSeenDistinct l).foldl
    (fun best v =>
      match best with
      | none => some v
      | some b => if countOcc l b < countOcc l v then some v else best)
    none

/-- `resolve_display_album` (lines 533-545): most common non-empty album
tag, else a fixed placeholder.  The `album_key` argument is unused in the
source body as well. -/
def resolve_display_album (album_files : List TrackRecord) (album_key : String) : String :=
  match mostCommon ((album_files.map (fun fi => fi.album)).filter (fun a => a ≠ "")) with
  | some name => name
  | none => "Unknown Album"

/-- `resolve_display_artist` (lines 548-555). -/
def resolve_display_artist (album_files : List TrackRecord) : String :=
  match mostCommon ((album_files.map (fun fi => fi.artist)).filter (fun a => a ≠ "")) with
  | some name => name
  | none => "Unknown Artist"

/-- CPython `PurePath.suffix` on a base name: the part from the last dot on,
provided that dot is neither the first nor the last character. -/
def lastIdxOf (c : Char) : List Char → Option ℕ
  | [] => none
  | x :: xs =>
    match lastIdxOf c xs with
    | some i => some (i + 1)
    | none => if x = c then some 0 else none

/-- `Path(name).suffix`. -/
def pySuffix (name : String) : String :=
  match lastIdxOf '.' name.data with
  | some i => if 0 < i ∧ i < name.data.length - 1 then String.mk (name.data.drop i) else ""
  | none => ""

/-- `str(Path(p).parent)` on the slash-joined paths the walker builds:
everything before the last slash, or a dot when there is none, or the root
slash. -/
def pyParent (p : String) : String :=
  match lastIdxOf '/' p.data with
  | none => "."
  | some 0 => "/"
  | some i => String.mk (p.data.take i)

/-- Append a value under a key in an insertion-ordered multimap: the model
of `defaultdict(list)` indexing, preserving first-seen key order and
per-key encounter order. -/
def addToGroups {α : Type} (acc : List (String × List α)) (k : String) (x : α) :
    List (String × List α) :=
  if acc.any (fun p => p.1 == k) then
    acc.map (fun p => if p.1 == k then (p.1, p.2 ++ [x]) else p)
  else acc ++ [(k, [x])]

/-- `group_by_album` (lines 499-530). -/
def group_by_album (file_infos : List TrackRecord) : List (String × List TrackRecord) :=
  if file_infos.any (fun fi => fi.path ≠ "") then
    file_infos.foldl
      (fun acc fi =>
        if fi.err ≠ none then addToGroups acc "__errors__" fi
        else
          let parent_key := canonicalize_string (pyParent fi.path)
          addToGroups acc (if parent_key = "" then "unknown_dir" else parent_key) fi)
      []
  else
    file_infos.foldl
      (fun acc fi =>
        if fi.err ≠ none then addToGroups acc "__errors__" fi
        else
          let key := canonicalize_string fi.album
          addToGroups acc (if key = "" then "unknown" else key) fi)
      []

/-- Python `fi.get("length_s") or 0`. -/
def lengthOr0 (fi : TrackRecord) : ℚ := fi.length_s.getD 0

/-- Aggregate duration of a group (line 570). -/
def album_total_seconds (album_files : List TrackRecord) : ℚ :=
  (album_files.map lengthOr0).sum

/-- Aggregate size of a group (line 571). -/
def album_total_size (album_files : List TrackRecord) : ℕ :=
  (album_files.map (fun fi => fi.size_bytes)).sum

/-- Sorted distinct lower-cased extensions of a group (line 578). -/
def extensions_in_album (album_files : List TrackRecord) : List String :=
  sortedDistinctStr (album_files.map (fun fi => pyLower (pySuffix fi.file_name)))

/-- Rule 1, mixed file formats (lines 578-580, severity Info). -/
def info_msgs (album_files : List TrackRecord) : List String :=
  let exts := extensions_in_album album_files
  if 1 < exts.length then
    ["There are multiple file formats found in this album: " ++
      String.intercalate ", " exts ++ "."]
  else []

/-- `files_by_hash` (lines 583-587): records with a truthy content hash,
grouped by hash, keys in first-seen order. -/
def files_by_hash (album_files : List TrackRecord) : List (String × List TrackRecord) :=
  album_files.foldl
    (fun acc fi =>
      match fi.content_hash with
      | some ch => if ch ≠ "" then addToGroups acc ch fi else acc
      | none => acc)
    []

/-- `all_groups` (line 589): every hash group, singletons included. -/
def all_hash_groups (album_files : List TrackRecord) : List (List TrackRecord) :=
  (files_by_hash album_files).map (fun p => p.2)

/-- `duplicate_groups` (line 590): hash groups of two or more records. -/
def duplicate_groups (album_files : List TrackRecord) : List (List TrackRecord) :=
  (all_hash_groups album_files).filter (fun g => 1 < g.length)

/-- Representative file of a duplicate group: `grp[0]["file_name"]`. -/
def repName (g : List TrackRecord) : String :=
  match g with
  | fi :: _ => fi.file_name
  | [] => ""

/-- The per-group duplicate sentence (lines 596-599). -/
def dup_sentence (g : List TrackRecord) : String :=
  "Duplicate audio content detected, for example: " ++ repName g ++
    " (+" ++ toString (g.length - 1) ++ " more in that group)."

/-- Rule 2, duplicate audio content (lines 582-603, severity Warn): up to
three representative sentences, then a summary counting `all_groups` not
shown — note the source subtracts the shown count from the number of all
hash groups, singletons included. -/
def dup_msgs (album_files : List TrackRecord) : List String :=
  let dgs := duplicate_groups album_files
  if dgs = [] then []
  else
    let shownGroups := dgs.take 3
    let reps := shownGroups.map dup_sentence
    let remaining := (all_hash_groups album_files).length - shownGroups.length
    if 0 < remaining then
      reps ++ ["There are " ++ toString remaining ++ " more duplicate group(s) not shown."]
    else reps

/-- Rule 3, album-name consistency (lines 606-608, severity Warn). -/
def album_name_msgs (album_files : List TrackRecord) : List String :=
  if 1 < (firstSeenDistinct ((album_files.map (fun fi => fi.album)).filter (fun a => a ≠ ""))).length then
    ["Tracks in this album do not all share the same album name."]
  else []

/-- Rule 4, artist consistency (lines 611-613, severity Warn). -/
def artist_msgs (album_files : List TrackRecord) : List String :=
  if 1 < (firstSeenDistinct ((album_files.map (fun fi => fi.artist)).filter (fun a => a ≠ ""))).length then
    ["Tracks in this album do not all share the same artist."]
  else []

/-- First artwork hash of a record, `next(iter(hs), None)` (line 620); the
model fixes the set-iteration order to the stored order. -/
def first_artwork_hash (fi : TrackRecord) : Option String :=
  match fi.artwork_hashes with
  | h :: _ => some h
  | [] => none

/-- Track labels of the records lacking artwork (lines 616-626): the track
number when present, else the file name. -/
def tracks_without_art (album_files : List TrackRecord) : List String :=
  (album_files.filter (fun fi => first_artwork_hash fi = none)).map
    (fun fi =>
      match fi.track_number with
      | some n => toString n
      | none => fi.file_name)

/-- Rule 5a, missing artwork (lines 627-628, severity Warn). -/
def artwork_missing_msgs (album_files : List TrackRecord) : List String :=
  let tw := tracks_without_art album_files
  if tw ≠ [] ∧ tw.length < album_files.length then
    ["The following tracks do not have an album cover: " ++
      String.intercalate ", " tw ++ "."]
  else []

/-- Rule 5b, artwork uniformity (lines 629-631, severity Warn). -/
def artwork_differs_msgs (album_files : List TrackRecord) : List String :=
  let present := (album_files.map first_artwork_hash).reduceOption
  if 1 < (firstSeenDistinct present).length then
    ["Cover artwork differs across tracks in this album."]
  else []

/-- Truthy sample rates of a group (line 634). -/
def sample_rates_of (album_files : List TrackRecord) : List ℕ :=
  (album_files.filterMap (fun fi => fi.sample_rate)).filter (fun r => r ≠ 0)

/-- Rule 6a, sample-rate consistency (lines 634-638, severity Warn). -/
def sample_rate_msgs (album_files : List TrackRecord) : List String :=
  let srs := sample_rates_of album_files
  let ds := sortedDistinctNat srs
  if srs ≠ [] ∧ 1 < ds.length then
    ["Tracks use multiple sample rates in this album: " ++
      String.intercalate ", " (ds.map toString) ++ "."]
  else []

/-- Non-`None` channel counts of a group (line 639); zero is kept, the
source tests `is not None`. -/
def channels_of (album_files : List TrackRecord) : List ℕ :=
  album_files.filterMap (fun fi => fi.channels)

/-- Rule 6b, channel-count consistency (lines 639-643, severity Warn). -/
def channels_msgs (album_files : List TrackRecord) : List String :=
  let chs := channels_of album_files
  let ds := sortedDistinctNat chs
  if chs ≠ [] ∧ 1 < ds.length then
    ["Tracks use multiple channel counts in this album: " ++
      String.intercalate ", " (ds.map toString) ++ "."]
  else []

/-- Truthy ID3 version strings of a group (line 646). -/
def id3_versions_of (album_files : List TrackRecord) : List String :=
  (album_files.filterMap (fun fi => fi.id3_version)).filter (fun v => v ≠ "")

/-- Rule 7, ID3 validation (lines 645-656, severity Warn): inconsistent
versions, then non-standard versions. -/
def id3_msgs (album_files : List TrackRecord) : List String :=
  let vs := id3_versions_of album_files
  if vs = [] then []
  else
    (if 1 < (sortedDistinctStr vs).length then
      ["ID3 versions are not consistent across tracks: " ++
        String.intercalate ", " (sortedDistinctStr vs) ++ "."]
    else []) ++
    (let invalid := vs.filter (fun v => v ≠ "2.3.0" ∧ v ≠ "2.4.0")
     if invalid ≠ [] then
      ["Some tracks use non-standard ID3 versions: " ++
        String.intercalate ", " (sortedDistinctStr invalid) ++ "."]
     else [])

/-- `crit_count` (lines 659-663): records whose container is `"mp3"` and
which are either tagged `mp3_unreadable` or lack a duration. -/
def crit_count (album_files : List TrackRecord) : ℕ :=
  (album_files.filter
    (fun fi => fi.container = some "mp3" ∧
      (fi.err = some "mp3_unreadable" ∨ fi.length_s = none))).length

/-- Rule 8, unreadable MP3s (lines 658-664, severity Crit). -/
def crit_msgs (album_files : List TrackRecord) : List String :=
  if crit_count album_files ≠ 0 then
    [toString (crit_count album_files) ++ " MP3 file(s) appear unreadable or invalid."]
  else []

/-- All Warn-tier sentences of a group in emission order (rules 2-7). -/
def warn_msgs (album_files : List TrackRecord) : List String :=
  dup_msgs album_files ++ album_name_msgs album_files ++ artist_msgs album_files ++
  artwork_missing_msgs album_files ++ artwork_differs_msgs album_files ++
  sample_rate_msgs album_files ++ channels_msgs album_files ++ id3_msgs album_files

/-- Result of `build_album_messages`: the source returns the tuple
`(level, messages, total_seconds, total_size_bytes)`. -/
structure AlbumDiag where
  level : Option String
  messages : List String
  total_seconds : ℚ
  total_size_bytes : ℕ
deriving DecidableEq

/-- `build_album_messages` (lines 558-679) with its severity-resolution
policy (lines 666-679). -/
def build_album_messages (album_files : List TrackRecord) : AlbumDiag :=
  let ts := album_total_seconds album_files
  let tb := album_total_size album_files
  if crit_msgs album_files ≠ [] then
    { level := some "CRIT", messages := warn_msgs album_files ++ crit_msgs album_files,
      total_seconds := ts, total_size_bytes := tb }
  else if warn_msgs album_files ≠ [] then
    { level := some "WARN", messages := warn_msgs album_files,
      total_seconds := ts, total_size_bytes := tb }
  else if info_msgs album_files ≠ [] then
    { level := some "INFO", messages := info_msgs album_files,
      total_seconds := ts, total_size_bytes := tb }
  else
    { level := none, messages := [], total_seconds := ts, total_size_bytes := tb }

/-- Python `round` to an integer: round half to even (banker's rounding),
over exact rationals. -/
def roundHalfEven (q : ℚ) : ℤ :=
  if q - ⌊q⌋ < 1/2 then ⌊q⌋
  else if 1/2 < q - ⌊q⌋ then ⌊q⌋ + 1
  else if ⌊q⌋ % 2 = 0 then ⌊q⌋ else ⌊q⌋ + 1

/-- The health score of `get_output` (lines 740-747):
`int(round(100 * (1 - penalty_units / max_units)))` for a non-empty library,
100 for an empty one. -/
def health_percent (total_albums warn_albums crit_albums : ℕ) : ℤ :=
  if 0 < total_albums then
    roundHalfEven (100 * (1 - ((warn_albums + 2 * crit_albums : ℚ) / (2 * total_albums))))
  else 100

/-- A run of `n` copies of a character, Python `c * n`. -/
def strRepeat (c : Char) (n : ℕ) : String := String.mk (List.replicate n c)

/-- `_render_health_bar` (lines 682-689), width 40. -/
def render_health_bar (hp0 : ℤ) : String :=
  let hp : ℤ := max 0 (min 100 hp0)
  let filled : ℕ := 40 * hp.toNat / 100
  let bar := strRepeat '=' filled ++ strRepeat '.' (40 - filled)
  "Health: [" ++ bar ++ "] " ++ toString hp ++ "%"

/-- `Decimal` rounding to an integer with `ROUND_HALF_UP` (ties away from
zero), used here only on non-negative values where it is `⌊q + 1/2⌋`. -/
def halfUpRound (q : ℚ) : ℤ := ⌊q + 1/2⌋

/-- Two-decimal rendering of a non-negative rational after
`quantize(Decimal(0.01), ROUND_HALF_UP)`. -/
def twoDecimalString (q : ℚ) : String :=
  let n := halfUpRound (q * 100)
  let ip := n / 100
  let fp := (n % 100).toNat
  toString ip ++ "." ++ (if fp < 10 then "0" ++ toString fp else toString fp)

/-- The unit-scaling loop of `format_bytes` (lines 178-183); the loop body
runs at most four times because the unit index must stay below the last
unit, so fuel 4 is exact. -/
def fbLoop : ℚ → ℕ → ℕ → ℚ × ℕ
  | size, idx, 0 => (size, idx)
  | size, idx, fuel + 1 =>
    if 1024 ≤ size ∧ idx < 4 then fbLoop (size / 1024) (idx + 1) fuel else (size, idx)

/-- `format_bytes` (lines 170-184). -/
def format_bytes (num_bytes : ℕ) : String :=
  let si := fbLoop (num_bytes : ℚ) 0 4
  let units := ["B", "KB", "MB", "GB", "TB"]
  twoDecimalString si.1 ++ " " ++ units.getD si.2 "TB"

/-- `format_duration_total` (lines 187-221), transcribed with the source's
own variable reuse (in particular the residual days after the week split are
what feeds the month split). -/
def format_duration_total (total_seconds : ℚ) : String :=
  let s0 : ℤ := halfUpRound total_seconds
  if s0 < 60 then toString s0 ++ "s"
  else
    let m1 := s0.fdiv 60
    let s1 := s0.fmod 60
    if m1 < 60 then toString m1 ++ "m " ++ toString s1 ++ "s"
    else
      let h2 := m1.fdiv 60
      let m2 := m1.fmod 60
      if h2 < 24 then toString h2 ++ "h " ++ toString m2 ++ "m " ++ toString s1 ++ "s"
      else
        let d3 := h2.fdiv 24
        let h3 := h2.fmod 24
        if d3 < 7 then toString d3 ++ "d " ++ toString h3 ++ "h " ++ toString m2 ++ "m"
        else
          let w4 := d3.fdiv 7
          let d4 := d3.fmod 7
          if w4 < 4 then toString w4 ++ "w " ++ toString d4 ++ "d " ++ toString h3 ++ "h"
          else
            let mo5 := d4.fdiv 30
            let d5 := d4.fmod 30
            if mo5 < 12 then toString mo5 ++ "mo " ++ toString d5 ++ "d"
            else
              let y6 := mo5.fdiv 12
              let mo6 := mo5.fmod 12
              toString y6 ++ "y " ++ toString mo6 ++ "mo"

/-- The recognized (non-error) records of a scan (line 711). -/
def recognized_files (file_infos : List TrackRecord) : List TrackRecord :=
  file_infos.filter (fun fi => fi.err = none)

/-- The total size figure of the report (line 737): it sums over the
recognized records only. -/
def report_total_size_bytes (file_infos : List TrackRecord) : ℕ :=
  ((recognized_files file_infos).map (fun fi => fi.size_bytes)).sum

/-- Album groups in report order (lines 717-720): sorted by the lower-cased
display album name, stably over first-seen key order. -/
def ordered_album_groups (albums : List (String × List TrackRecord)) :
    List (String × List TrackRecord) :=
  sortByKey (fun kg => pyLower (resolve_display_album kg.2 kg.1)) albums

/-- The first pass over albums (lines 723-733): each ordered group paired
with its diagnostics. -/
def computed_per_album (ordered : List (String × List TrackRecord)) :
    List (String × List TrackRecord × AlbumDiag) :=
  ordered.map (fun kg => (kg.1, kg.2, build_album_messages kg.2))

/-- One album header line (lines 793-806). -/
def albumHeaderLine (per_album : Bool) (level display_album display_artist : String)
    (album_seconds : ℚ) (album_size : ℕ) : String :=
  let tag := if level == "CRIT" then "[CRIT]" else if level == "WARN" then "[WARN]" else "[INFO]"
  if per_album then
    tag ++ " " ++ display_album ++ " (" ++ display_artist ++ ") | Duration: " ++
      format_duration_total album_seconds ++ ", Size " ++ format_bytes album_size
  else
    tag ++ " " ++ display_album ++ " (" ++ display_artist ++ "):"

/-- The album blocks of the report (lines 781-810): albums whose severity
is `None` are skipped, every other album yields one block of header plus
indented bullets, ending in a newline. -/
def album_blocks_of (per_album : Bool) (ordered : List (String × List TrackRecord)) :
    List String :=
  (computed_per_album ordered).filterMap
    (fun c =>
      match c.2.2.level with
      | none => none
      | some lvl =>
        let header_line := albumHeaderLine per_album lvl
          (resolve_display_album c.2.1 c.1) (resolve_display_artist c.2.1)
          c.2.2.total_seconds c.2.2.total_size_bytes
        some (String.intercalate "\n"
          (header_line :: c.2.2.messages.map (fun s => "    - " ++ s)) ++ "\n"))

/-- Everything `get_output` (lines 692-840) does after the scan: from the
flat record list and the debug lines to the final report text. -/
def reportFromRecords (root : String) (debug_enabled per_album no_quick_stats : Bool)
    (file_infos : List TrackRecord) (debug_lines : List String) : String :=
  let header_title := "\n\"" ++ root ++ "\" Library Scan"
  let recognized := recognized_files file_infos
  if recognized = [] then "Couldn\x27t find any music files with current parameters.\n"
  else
    let albums_by_key := group_by_album recognized
    let ordered := ordered_album_groups albums_by_key
    let computed := computed_per_album ordered
    let warn_albums := (computed.filter (fun c => c.2.2.level = some "WARN")).length
    let crit_albums := (computed.filter (fun c => c.2.2.level = some "CRIT")).length
    let total_albums := ordered.length
    let total_tracks := recognized.length
    let total_length_seconds := (recognized.map lengthOr0).sum
    let hp := health_percent total_albums warn_albums crit_albums
    let health_line := render_health_bar hp
    let quick_line := "Albums: " ++ toString total_albums ++ "  Tracks: " ++
      toString total_tracks ++ "  Size: " ++ format_bytes (report_total_size_bytes file_infos) ++
      "  Duration: " ++ format_duration_total total_length_seconds
    let output_lines_1 : List String :=
      if !no_quick_stats then
        let sep := strRepeat '=' quick_line.length
        [header_title, sep, health_line, quick_line, sep, "\n"]
      else
        [header_title, strRepeat '=' health_line.length, health_line,
          strRepeat '=' health_line.length, "\n"]
    let album_blocks := album_blocks_of per_album ordered
    if album_blocks = [] then
      let output_lines_2 := output_lines_1 ++
        (if no_quick_stats then [strRepeat '=' header_title.length] else []) ++
        ["No warnings, critical issues, or informational notes were detected."]
      let output_lines_3 :=
        if debug_enabled ∧ debug_lines ≠ [] then output_lines_2 ++ ["", "Debug"] ++ debug_lines
        else output_lines_2
      String.intercalate "\n" output_lines_3 ++ "\n"
    else
      let output_lines_2 := output_lines_1 ++ album_blocks ++
        ["", "Legend",
         "  [CRIT] Serious problems that likely prevent proper playback or visibility.",
         "  [WARN] Inconsistencies that may cause confusion or uneven playback/organization.",
         "  [INFO] Helpful notes that are not problems (for example, multiple file formats)."]
      let output_lines_3 :=
        if debug_enabled ∧ debug_lines ≠ [] then output_lines_2 ++ ["", "Debug"] ++ debug_lines
        else output_lines_2
      String.intercalate "\n" output_lines_3 ++ "\n"

/- A directory tree as the walker sees it.  Each node lists its files and
then its subdirectories; `os.scandir` order is filesystem-defined in the
source and carries no guarantee, so the model fixes one listing order per
node (files first), which the final stable sort then erases. -/
mutual
inductive FsTree where
  | node (files : List FileModel) (dirs : DirList) : FsTree
inductive DirList where
  | dnil : DirList
  | dcons (name : String) (tree : FsTree) (rest : DirList) : DirList
end

/-- `should_consider` (lines 443-445 and 388-390): the extension,
lower-cased, is in the supported set. -/
def should_consider (name : String) : Bool :=
  SUPPORTED_EXTENSIONS.contains (pyLower (pySuffix name))

/- The record collection of `walk_dir`
(`scan_folder_for_audio_recursive`, lines 447-493): files of the visited
directory that pass the extension test become uniform records; a
subdirectory is walked only while the current depth is below the bound.
The two exception branches of the loop (lines 467-486) are unreachable in
the model because `to_uniform_dict` already converts every decoder failure
into an error record and never raises. -/
mutual
def walk_files (dir_path : String) (cur max_depth : ℕ) : FsTree → List TrackRecord
  | .node files dirs =>
    (files.filter (fun f => should_consider f.name)).map
      (fun f => to_uniform_dict (dir_path ++ "/" ++ f.name) f) ++
    (if cur < max_depth then walk_files_dirs dir_path cur max_depth dirs else [])
def walk_files_dirs (dir_path : String) (cur max_depth : ℕ) : DirList → List TrackRecord
  | .dnil => []
  | .dcons name t rest =>
    walk_files (dir_path ++ "/" ++ name) (cur + 1) max_depth t ++
    walk_files_dirs dir_path cur max_depth rest
end

/- The debug lines of `walk_dir`: one entering line per visited directory
(line 450), one depth-limit line per subdirectory not descended into
(line 466). -/
mutual
def walk_debug (dir_path : String) (cur max_depth : ℕ) : FsTree → List String
  | .node _ dirs =>
    ("[debug] entering: " ++ dir_path ++ " (depth=" ++ toString cur ++ ")") ::
      walk_debug_dirs dir_path cur max_depth dirs
def walk_debug_dirs (dir_path : String) (cur max_depth : ℕ) : DirList → List String
  | .dnil => []
  | .dcons name t rest =>
    (if cur < max_depth then walk_debug (dir_path ++ "/" ++ name) (cur + 1) max_depth t
     else ["[debug] depth limit reached at: " ++ dir_path ++ "/" ++ name]) ++
    walk_debug_dirs dir_path cur max_depth rest
end

/- `scan_count_total_candidates` (lines 377-407), with the current depth
threaded as in the source. -/
mutual
def count_candidates (cur max_depth : ℕ) : FsTree → ℕ
  | .node files dirs =>
    (files.filter (fun f => should_consider f.name)).length +
    (if cur < max_depth then count_candidates_dirs cur max_depth dirs else 0)
def count_candidates_dirs (cur max_depth : ℕ) : DirList → ℕ
  | .dnil => 0
  | .dcons _ t rest =>
    count_candidates (cur + 1) max_depth t + count_candidates_dirs cur max_depth rest
end

/-- `scan_count_total_candidates` applied at the root (depth 0). -/
def scan_count_total_candidates (max_depth : ℕ) (t : FsTree) : ℕ :=
  count_candidates 0 max_depth t

/-- The final stable sort of the scan (line 495): by lower-cased file
name. -/
def scanSort (results : List TrackRecord) : List TrackRecord :=
  sortByKey (fun r => pyLower r.file_name) results

/-- `scan_folder_for_audio_recursive` (lines 410-496): walk from the root
at depth 0, then sort by case-folded file name; debug lines are collected
only when debugging is enabled.  The progress bar is terminal output, not
part of the returned value. -/
def scan_folder_for_audio_recursive (root : String) (max_depth : ℕ) (debug_enabled : Bool)
    (t : FsTree) : List TrackRecord × List String :=
  (scanSort (walk_files root 0 max_depth t),
   if debug_enabled then walk_debug root 0 max_depth t else [])

/-- `get_output` (lines 692-840): the entry function from the invocation
inputs and the directory tree to the report text. -/
def get_output (root : String) (debug_enabled : Bool) (max_depth : ℕ)
    (per_album no_quick_stats : Bool) (t : FsTree) : String :=
  let scanned := scan_folder_for_audio_recursive root max_depth debug_enabled t
  reportFromRecords root debug_enabled per_album no_quick_stats scanned.1 scanned.2

/- Specification-side enumeration for the depth-bound claim: every file of
the tree together with the depth of its directory (root at depth 0) and its
full path, in the walker's listing order, with no depth bound and no
extension filter applied. -/
mutual
def files_with_depth (dir_path : String) (d : ℕ) : FsTree → List (ℕ × String × FileModel)
  | .node files dirs =>
    files.map (fun f => (d, dir_path ++ "/" ++ f.name, f)) ++
    files_with_depth_dirs dir_path d dirs
def files_with_depth_dirs (dir_path : String) (d : ℕ) : DirList → List (ℕ × String × FileModel)
  | .dnil => []
  | .dcons name t rest =>
    files_with_depth (dir_path ++ "/" ++ name) (d + 1) t ++
    files_with_depth_dirs dir_path d rest
end

/-- A uniform record with every optional key absent and every string field
empty; concrete test inputs below override the relevant fields, mirroring
the synthetic dictionaries the legacy tests feed `build_album_messages`. -/
def blankRec : TrackRecord :=
  { path := "", file_name := "", err := none, container := none, length_s := none,
    sample_rate := none, channels := none, bitrate := none, tags := [], title := "",
    album := "", artist := "", track_number := none, track_total := none,
    id3_version := none, artwork_hashes := [], content_hash := none, size_bytes := 0 }

/-- Duplicate-reporting test group: two records share a content hash, a
third carries a singleton hash of its own. -/
def cexDupFiles : List TrackRecord :=
  [ { blankRec with file_name := "t1.mp3", content_hash := some "aaaa" },
    { blankRec with file_name := "t2.mp3", content_hash := some "aaaa" },
    { blankRec with file_name := "t3.mp3", content_hash := some "bbbb" } ]

/-- A file whose decode raises an MP3 header error. -/
def mp3ErrFile : FileModel :=
  { name := "x.mp3", size_bytes := 10, content_hash := some "cafe", decode := .errMp3 }

/-- The adapter's record for `mp3ErrFile`. -/
def mp3ErrRec : TrackRecord := to_uniform_dict "lib/x.mp3" mp3ErrFile

/-- A successfully decoded MP3 whose stream info lacks a duration. -/
def mp3NoLenRec : TrackRecord :=
  to_uniform_dict "lib/y.mp3"
    { name := "y.mp3", size_bytes := 5, content_hash := some "beef",
      decode := .ok "mp3" none (some 44100) (some 2) (some 128000) [] [] (some "2.3.0") }

/-- An unreadable file of 100 bytes. -/
def sizeErrRec : TrackRecord :=
  to_uniform_dict "lib/bad.mp3"
    { name := "bad.mp3", size_bytes := 100, content_hash := some "dead", decode := .errGeneric }

/-- A readable file of 50 bytes. -/
def sizeOkRec : TrackRecord :=
  to_uniform_dict "lib/good.mp3"
    { name := "good.mp3", size_bytes := 50, content_hash := some "feed",
      decode := .ok "mp3" (some 60) (some 44100) (some 2) (some 128000) [] [] (some "2.3.0") }

/-- Scan result mixing one error record and one recognized record. -/
def cinfos : List TrackRecord := [sizeErrRec, sizeOkRec]

/-- Two files in one directory whose names differ only by case and whose
contents hash identically. -/
def fUpper : FileModel :=
  { name := "A.mp3", size_bytes := 4, content_hash := some "h",
    decode := .ok "mp3" (some 10) (some 44100) (some 2) (some 128000) [] [] (some "2.3.0") }

/-- Lower-case twin of `fUpper`. -/
def fLower : FileModel :=
  { name := "a.mp3", size_bytes := 4, content_hash := some "h",
    decode := .ok "mp3" (some 10) (some 44100) (some 2) (some 128000) [] [] (some "2.3.0") }

/-- The same directory listed in two different orders. -/
def tOrder1 : FsTree := .node [fUpper, fLower] .dnil

/-- The same directory as `tOrder1`, opposite listing order. -/
def tOrder2 : FsTree := .node [fLower, fUpper] .dnil

/-- Two distinctly named readable records for the order-invariance witness. -/
def recX : TrackRecord :=
  to_uniform_dict "lib/x.flac"
    { name := "x.flac", size_bytes := 7, content_hash := some "hx",
      decode := .ok "flac" (some 12) (some 44100) (some 2) (some 900000) [] [] none }

/-- Companion record to `recX` with a different case-folded name. -/
def recY : TrackRecord :=
  to_uniform_dict "lib/y.mp3"
    { name := "y.mp3", size_bytes := 9, content_hash := some "hy",
      decode := .ok "mp3" (some 30) (some 44100) (some 2) (some 128000) [] [] (some "2.3.0") }

/-- A shallow candidate file at depth 0. -/
def fShallow : FileModel :=
  { name := "s.mp3", size_bytes := 3, content_hash := some "hs",
    decode := .ok "mp3" (some 10) (some 44100) (some 2) (some 128000) [] [] (some "2.3.0") }

/-- A candidate file nested two directories deep. -/
def fDeep : FileModel :=
  { name := "deep.mp3", size_bytes := 3, content_hash := some "hd",
    decode := .ok "mp3" (some 10) (some 44100) (some 2) (some 128000) [] [] (some "2.3.0") }

/-- A tree with `fShallow` at depth 0 and `fDeep` inside a directory at
depth 2, for a scan bounded at depth 1. -/
def tDepth : FsTree :=
  .node [fShallow]
    (.dcons "d1" (.node [] (.dcons "d2" (.node [fDeep] .dnil) .dnil)) .dnil)

/-- The record the bounded scan of `tDepth` keeps. -/
def shallowRec : TrackRecord := to_uniform_dict "r/s.mp3" fShallow

/-- The depth-and-extension test of the depth-bound claim: the entry's
directory depth is within the bound and its name has a supported
extension. -/
def withinAndEligible (max_depth : ℕ) (e : ℕ × String × FileModel) : Bool :=
  decide (e.1 ≤ max_depth) && should_consider e.2.2.name

/-- A directory holding one unrecognized-extension file. -/
def tTxt : FsTree :=
  .node [{ name := "readme.txt", size_bytes := 1, content_hash := none,
           decode := .unrecognized }] .dnil

/-- A directory holding one file whose decode fails. -/
def tErr : FsTree := .node [mp3ErrFile] .dnil

/-! ## Supporting lemmas -/

theorem insertByKey_perm {α : Type} (k : α → String) (x : α) :
    ∀ l : List α, (insertByKey k x l).Perm (x :: l)
  | [] => List.Perm.refl _
  | y :: ys => by
    unfold insertByKey
    split_ifs
    · exact List.Perm.refl _
    · exact ((insertByKey_perm k x ys).cons y).trans (List.Perm.swap x y ys)

theorem foldl_insertByKey_perm {α : Type} (k : α → String) :
    ∀ (l acc : List α), (l.foldl (fun a x => insertByKey k x a) acc).Perm (acc ++ l)
  | [], acc => by simp
  | x :: xs, acc => by
    have h1 := foldl_insertByKey_perm k xs (insertByKey k x acc)
    have h2 : (insertByKey k x acc ++ xs).Perm ((x :: acc) ++ xs) :=
      (insertByKey_perm k x acc).append_right xs
    have h3 : ((x :: acc) ++ xs).Perm (acc ++ x :: xs) := List.perm_middle.symm
    exact (h1.trans h2).trans h3

theorem sortByKey_perm {α : Type} (k : α → String) (l : List α) :
    (sortByKey k l).Perm l := by
  simpa using foldl_insertByKey_perm k l []

theorem to_uniform_dict_path (p : String) (f : FileModel) :
    (to_uniform_dict p f).path = p := by
  cases h : f.decode <;> simp [to_uniform_dict, errRecord, h]

mutual
theorem depth_lb_tree : ∀ (dir_path : String) (d : ℕ) (t : FsTree)
    (e : ℕ × String × FileModel), e ∈ files_with_depth dir_path d t → d ≤ e.1
  | dir_path, d, .node files dirs, e => by
    intro he
    simp only [files_with_depth] at he
    rcases List.mem_append.mp he with h1 | h1
    · obtain ⟨f, _, rfl⟩ := List.mem_map.mp h1
      exact Nat.le_refl d
    · exact Nat.le_of_succ_le (depth_lb_dirs dir_path d dirs e h1)
theorem depth_lb_dirs : ∀ (dir_path : String) (d : ℕ) (ds : DirList)
    (e : ℕ × String × FileModel), e ∈ files_with_depth_dirs dir_path d ds → d + 1 ≤ e.1
  | _, _, .dnil, e => by
    intro he
    simp [files_with_depth_dirs] at he
  | dir_path, d, .dcons name t rest, e => by
    intro he
    simp only [files_with_depth_dirs] at he
    rcases List.mem_append.mp he with h1 | h1
    · exact depth_lb_tree (dir_path ++ "/" ++ name) (d + 1) t e h1
    · exact depth_lb_dirs dir_path d rest e h1
end

mutual
theorem walk_files_eq_spec : ∀ (dir_path : String) (cur max_depth : ℕ),
    cur ≤ max_depth → ∀ t : FsTree,
    walk_files dir_path cur max_depth t =
      ((files_with_depth dir_path cur t).filter (withinAndEligible max_depth)).map
        (fun e => to_uniform_dict e.2.1 e.2.2)
  | dir_path, cur, max_depth, h, .node files dirs => by
    have hfiles : ((files.map
          (fun f => (cur, dir_path ++ "/" ++ f.name, f))).filter
            (withinAndEligible max_depth)).map
          (fun e : ℕ × String × FileModel => to_uniform_dict e.2.1 e.2.2) =
        (files.filter (fun f => should_consider f.name)).map
          (fun f => to_uniform_dict (dir_path ++ "/" ++ f.name) f) := by
      rw [List.filter_map, List.map_map]
      have hp : (withinAndEligible max_depth) ∘
          (fun f : FileModel => (cur, dir_path ++ "/" ++ f.name, f)) =
          (fun f => should_consider f.name) := by
        funext f
        simp [withinAndEligible, h]
      rw [hp]
      rfl
    by_cases hlt : cur < max_depth
    · simp only [walk_files, files_with_depth, if_pos hlt, List.filter_append, List.map_append]
      rw [hfiles, walk_files_dirs_eq_spec dir_path cur max_depth hlt dirs]
    · have hcur : cur = max_depth := Nat.le_antisymm h (Nat.le_of_not_lt hlt)
      have hnil : (files_with_depth_dirs dir_path cur dirs).filter
          (withinAndEligible max_depth) = [] := by
        apply List.filter_eq_nil_iff.mpr
        intro e he
        have hd := depth_lb_dirs dir_path cur dirs e he
        simp only [withinAndEligible, Bool.and_eq_true, decide_eq_true_eq, not_and]
        intro hle
        omega
      simp only [walk_files, files_with_depth, if_neg hlt, List.filter_append, List.map_append]
      rw [hfiles, hnil]
      simp
theorem walk_files_dirs_eq_spec : ∀ (dir_path : String) (cur max_depth : ℕ),
    cur < max_depth → ∀ ds : DirList,
    walk_files_dirs dir_path cur max_depth ds =
      ((files_with_depth_dirs dir_path cur ds).filter (withinAndEligible max_depth)).map
        (fun e => to_uniform_dict e.2.1 e.2.2)
  | _, _, _, _, .dnil => by simp [walk_files_dirs, files_with_depth_dirs]
  | dir_path, cur, max_depth, h, .dcons name t rest => by
    simp only [walk_files_dirs, files_with_depth_dirs, List.filter_append, List.map_append]
    rw [walk_files_eq_spec (dir_path ++ "/" ++ name) (cur + 1) max_depth h t,
      walk_files_dirs_eq_spec dir_path cur max_depth h rest]
end

mutual
theorem count_eq_walk_len : ∀ (dir_path : String) (cur max_depth : ℕ) (t : FsTree),
    count_candidates cur max_depth t = (walk_files dir_path cur max_depth t).length
  | dir_path, cur, max_depth, .node files dirs => by
    simp only [count_candidates, walk_files, List.length_append, List.length_map]
    by_cases hlt : cur < max_depth
    · rw [if_pos hlt, if_pos hlt, count_dirs_eq_walk_len dir_path cur max_depth dirs]
    · rw [if_neg hlt, if_neg hlt]
      rfl
theorem count_dirs_eq_walk_len : ∀ (dir_path : String) (cur max_depth : ℕ) (ds : DirList),
    count_candidates_dirs cur max_depth ds = (walk_files_dirs dir_path cur max_depth ds).length
  | _, _, _, .dnil => rfl
  | dir_path, cur, max_depth, .dcons name t rest => by
    simp only [count_candidates_dirs, walk_files_dirs, List.length_append]
    rw [count_eq_walk_len (dir_path ++ "/" ++ name) (cur + 1) max_depth t,
      count_dirs_eq_walk_len dir_path cur max_depth rest]
end

theorem roundHalfEven_nonneg (q : ℚ) (h : 0 ≤ q) : 0 ≤ roundHalfEven q := by
  have hf : (0 : ℤ) ≤ ⌊q⌋ := Int.le_floor.mpr (by exact_mod_cast h)
  unfold roundHalfEven
  split_ifs <;> omega

theorem roundHalfEven_le (q : ℚ) (B : ℤ) (h : q ≤ B) : roundHalfEven q ≤ B := by
  have hfB : ⌊q⌋ ≤ B := by
    calc ⌊q⌋ ≤ ⌊(B : ℚ)⌋ := Int.floor_le_floor h
    _ = B := Int.floor_intCast B
  have hfq : (⌊q⌋ : ℚ) ≤ q := Int.floor_le q
  unfold roundHalfEven
  split_ifs with h1 h2 h3
  · exact hfB
  · have hlt : (⌊q⌋ : ℚ) < (B : ℚ) := by
      have : (⌊q⌋ : ℚ) + 1/2 < q := by linarith
      have hB : (q : ℚ) ≤ (B : ℚ) := h
      linarith
    have : ⌊q⌋ < B := by exact_mod_cast hlt
    omega
  · exact hfB
  · have hlt : (⌊q⌋ : ℚ) < (B : ℚ) := by
      have : (⌊q⌋ : ℚ) + 1/2 ≤ q := by linarith
      have hB : (q : ℚ) ≤ (B : ℚ) := h
      linarith
    have : ⌊q⌋ < B := by exact_mod_cast hlt
    omega

theorem splitFirstSlash_some_iff :
    ∀ cs l r, splitFirstSlash cs = some (l, r) ↔ (cs = l ++ '/' :: r ∧ '/' ∉ l)
  | [], l, r => by
    simp only [splitFirstSlash]
    constructor
    · intro h; exact absurd h (by simp)
    · rintro ⟨h, _⟩; exact absurd h (by simp)
  | c :: cs, l, r => by
    simp only [splitFirstSlash]
    by_cases hc : c = '/'
    · subst hc
      rw [if_pos rfl]
      simp only [Option.some.injEq, Prod.mk.injEq]
      constructor
      · rintro ⟨hl, hr⟩
        subst hl; subst hr
        exact ⟨rfl, by simp⟩
      · rintro ⟨heq, hnot⟩
        cases l with
        | nil =>
          simp only [List.nil_append, List.cons.injEq] at heq
          exact ⟨rfl, heq.2⟩
        | cons x l2 =>
          simp only [List.cons_append, List.cons.injEq] at heq
          exact absurd (heq.1 ▸ List.mem_cons_self x l2) hnot
    · rw [if_neg hc]
      constructor
      · intro h
        cases hsp : splitFirstSlash cs with
        | none => rw [hsp] at h; exact absurd h (by simp)
        | some p =>
          rw [hsp] at h
          simp only [Option.some.injEq, Prod.mk.injEq] at h
          obtain ⟨hl, hr⟩ := h
          obtain ⟨hcs, hnot⟩ := (splitFirstSlash_some_iff cs p.1 p.2).mp (by rw [hsp])
          subst hl
          constructor
          · simp [hcs, hr]
          · intro hmem
            rcases List.mem_cons.mp hmem with h1 | h1
            · exact hc h1.symm
            · exact hnot h1
      · rintro ⟨heq, hnot⟩
        cases l with
        | nil =>
          simp only [List.nil_append, List.cons.injEq] at heq
          exact absurd heq.1 hc
        | cons x l2 =>
          simp only [List.cons_append, List.cons.injEq] at heq
          have hx : x = c := heq.1.symm
          subst hx
          have hnot2 : '/' ∉ l2 := fun hm => hnot (List.mem_cons_of_mem _ hm)
          have := (splitFirstSlash_some_iff cs l2 r).mpr ⟨heq.2, hnot2⟩
          rw [this]

theorem splitFirstSlash_none_iff : ∀ cs, splitFirstSlash cs = none ↔ '/' ∉ cs
  | [] => by simp [splitFirstSlash]
  | c :: cs => by
    simp only [splitFirstSlash]
    by_cases hc : c = '/'
    · subst hc
      simp
    · rw [if_neg hc]
      cases hsp : splitFirstSlash cs with
      | none =>
        have := (splitFirstSlash_none_iff cs).mp hsp
        simp [this, Ne.symm hc]
      | some p =>
        have hmem : '/' ∈ cs := by
          obtain ⟨hcs, _⟩ := (splitFirstSlash_some_iff cs p.1 p.2).mp (by rw [hsp])
          rw [hcs]
          exact List.mem_append_right _ (List.mem_cons_self _ _)
        simp [hmem]

/-! ## Claim theorems -/

/-- Claim C1: for every album count `n` and Warn/Crit album counts `w`, `c`
with `w + c ≤ n`, the health score equals
`round(100 * (1 - (w + 2c) / (2n)))` when `n > 0` (Python `round`, ties to
even) and `100` when `n = 0`, and it is always an integer in `[0, 100]`. -/
theorem health_percent_spec (n w c : ℕ) (h : w + c ≤ n) :
    health_percent n w c =
      (if 0 < n then roundHalfEven (100 * (1 - ((w + 2 * c : ℚ) / (2 * n)))) else 100) ∧
    0 ≤ health_percent n w c ∧ health_percent n w c ≤ 100 := by
  refine ⟨rfl, ?_, ?_⟩
  · unfold health_percent
    split_ifs with hn
    · apply roundHalfEven_nonneg
      have hn2 : (0 : ℚ) < (n : ℚ) := by exact_mod_cast hn
      have hwc : ((w : ℚ) + (c : ℚ)) ≤ (n : ℚ) := by exact_mod_cast h
      have hp : ((w : ℚ) + 2 * c) ≤ 2 * n := by linarith
      have hdenom : (0 : ℚ) < 2 * n := by linarith
      have hle : ((w : ℚ) + 2 * c) / (2 * n) ≤ 1 := by
        rw [div_le_one hdenom]; exact hp
      linarith
    · norm_num
  · unfold health_percent
    split_ifs with hn
    · apply roundHalfEven_le
      have hn2 : (0 : ℚ) < (n : ℚ) := by exact_mod_cast hn
      have hdenom : (0 : ℚ) < 2 * n := by linarith
      have hnum : (0 : ℚ) ≤ (w : ℚ) + 2 * c := by positivity
      have hge : (0 : ℚ) ≤ ((w : ℚ) + 2 * c) / (2 * n) := div_nonneg hnum (le_of_lt hdenom)
      push_cast
      linarith
    · norm_num

/-- Witness for C1 at a one-album library with one Warn album. -/
theorem health_percent_spec_witness :
    (1 : ℕ) + 0 ≤ 1 ∧ (0 ≤ health_percent 1 1 0 ∧ health_percent 1 1 0 ≤ 100) :=
  ⟨by decide, (health_percent_spec 1 1 0 (by decide)).2⟩

/-- Claim C8: the raw track value, when absent or empty, yields both fields
absent; when its trimmed text splits at the first slash as `l ++ "/" ++ r`,
the two sides are integer-parsed independently (a failing side is `none`);
when it contains no slash the whole trimmed text is parsed as the number and
the total is absent. -/
theorem parse_track_number_spec (tags_map : List (String × List String)) :
    (raw_track_value tags_map = none ∨ raw_track_value tags_map = some "" →
      parse_track_number tags_map = (none, none)) ∧
    (∀ s l r, raw_track_value tags_map = some s → s ≠ "" →
      (pyStrip s).data = l ++ '/' :: r → '/' ∉ l →
      parse_track_number tags_map = (safe_int (String.mk l), safe_int (String.mk r))) ∧
    (∀ s, raw_track_value tags_map = some s → s ≠ "" → '/' ∉ (pyStrip s).data →
      parse_track_number tags_map = (safe_int (pyStrip s), none)) := by
  refine ⟨?_, ?_, ?_⟩
  · rintro (h | h) <;> simp [parse_track_number, h]
  · intro s l r hs hne hdecomp hnotin
    have hsplit : splitFirstSlash (pyStrip s).data = some (l, r) :=
      (splitFirstSlash_some_iff (pyStrip s).data l r).mpr ⟨hdecomp, hnotin⟩
    simp [parse_track_number, hs, hne, hsplit]
  · intro s hs hne hnotin
    have hsplit : splitFirstSlash (pyStrip s).data = none :=
      (splitFirstSlash_none_iff (pyStrip s).data).mpr hnotin
    simp [parse_track_number, hs, hne, hsplit]

/-- Witness for C8 on the raw value `"3/12"`. -/
theorem parse_track_number_spec_witness :
    raw_track_value [("TRCK", ["3/12"])] = some "3/12" ∧
    parse_track_number [("TRCK", ["3/12"])] =
      (safe_int (String.mk ['3']), safe_int (String.mk ['1', '2'])) :=
  ⟨by decide,
    (parse_track_number_spec [("TRCK", ["3/12"])]).2.1 "3/12" ['3'] ['1', '2']
      (by decide) (by decide) (by decide) (by decide)⟩

theorem sum_partition_by_err (l : List TrackRecord) :
    ((l.filter (fun fi => fi.err = none)).map (fun fi => fi.size_bytes)).sum +
      ((l.filter (fun fi => fi.err ≠ none)).map (fun fi => fi.size_bytes)).sum =
    (l.map (fun fi => fi.size_bytes)).sum := by
  induction l with
  | nil => rfl
  | cons fi rest ih =>
    by_cases h : fi.err = none
    · rw [List.filter_cons_of_pos (by simp [h]), List.filter_cons_of_neg (by simp [h])]
      simp only [List.map_cons, List.sum_cons]
      omega
    · rw [List.filter_cons_of_neg (by simp [h]), List.filter_cons_of_pos (by simp [h])]
      simp only [List.map_cons, List.sum_cons]
      omega

theorem mem_addToGroups {α : Type} {acc : List (String × List α)} {k : String} {x : α}
    {k2 : String} {g : List α} {r : α}
    (hg : (k2, g) ∈ addToGroups acc k x) (hr : r ∈ g) :
    (∃ g0, (k2, g0) ∈ acc ∧ r ∈ g0) ∨ r = x := by
  unfold addToGroups at hg
  split_ifs at hg with hany
  · rcases List.mem_map.mp hg with ⟨p, hp, hfp⟩
    by_cases hpk : p.1 == k
    · rw [if_pos hpk] at hfp
      have hk2 : p.1 = k2 := congrArg Prod.fst hfp
      have hg2 : p.2 ++ [x] = g := congrArg Prod.snd hfp
      rcases List.mem_append.mp (hg2 ▸ hr) with hin | hin
      · have hpe : (k2, p.2) = p := by rw [← hk2]
        exact Or.inl ⟨p.2, hpe ▸ hp, hin⟩
      · exact Or.inr (List.mem_singleton.mp hin)
    · rw [if_neg hpk] at hfp
      exact Or.inl ⟨g, hfp ▸ hp, hr⟩
  · rcases List.mem_append.mp hg with hin | hin
    · exact Or.inl ⟨g, hin, hr⟩
    · have hpair : (k2, g) = (k, [x]) := List.mem_singleton.mp hin
      have hgx : g = [x] := congrArg Prod.snd hpair
      exact Or.inr (List.mem_singleton.mp (hgx ▸ hr))

theorem mem_foldl_addToGroups {α : Type} (K : α → String) :
    ∀ (l : List α) (acc : List (String × List α)) (k2 : String) (g : List α) (r : α),
      (k2, g) ∈ l.foldl (fun a x => addToGroups a (K x) x) acc → r ∈ g →
      (∃ g0, (k2, g0) ∈ acc ∧ r ∈ g0) ∨ r ∈ l
  | [], _, _, _, _ => fun hg hr => Or.inl ⟨_, hg, hr⟩
  | x :: xs, acc, k2, g, r => fun hg hr => by
    rcases mem_foldl_addToGroups K xs (addToGroups acc (K x) x) k2 g r hg hr with ⟨g0, hg0, hr0⟩ | hin
    · rcases mem_addToGroups hg0 hr0 with h1 | h1
      · exact Or.inl h1
      · exact Or.inr (h1 ▸ List.mem_cons_self x xs)
    · exact Or.inr (List.mem_cons_of_mem x hin)

theorem mem_group_by_album {l : List TrackRecord} {k : String} {g : List TrackRecord}
    {r : TrackRecord} (hg : (k, g) ∈ group_by_album l) (hr : r ∈ g) : r ∈ l := by
  unfold group_by_album at hg
  split_ifs at hg with hpath
  · have hbody : (fun (a : List (String × List TrackRecord)) fi =>
        if fi.err ≠ none then addToGroups a "__errors__" fi
        else
          let parent_key := canonicalize_string (pyParent fi.path)
          addToGroups a (if parent_key = "" then "unknown_dir" else parent_key) fi) =
        (fun a fi => addToGroups a
          (if fi.err ≠ none then "__errors__"
           else if canonicalize_string (pyParent fi.path) = "" then "unknown_dir"
           else canonicalize_string (pyParent fi.path)) fi) := by
      funext a fi
      by_cases h : fi.err ≠ none <;> simp [h]
    rw [hbody] at hg
    rcases mem_foldl_addToGroups _ l [] k g r hg hr with ⟨g0, hg0, _⟩ | hin
    · exact absurd hg0 (List.not_mem_nil _)
    · exact hin
  · have hbody : (fun (a : List (String × List TrackRecord)) fi =>
        if fi.err ≠ none then addToGroups a "__errors__" fi
        else
          let key := canonicalize_string fi.album
          addToGroups a (if key = "" then "unknown" else key) fi) =
        (fun a fi => addToGroups a
          (if fi.err ≠ none then "__errors__"
           else if canonicalize_string fi.album = "" then "unknown"
           else canonicalize_string fi.album) fi) := by
      funext a fi
      by_cases h : fi.err ≠ none <;> simp [h]
    rw [hbody] at hg
    rcases mem_foldl_addToGroups _ l [] k g r hg hr with ⟨g0, hg0, _⟩ | hin
    · exact absurd hg0 (List.not_mem_nil _)
    · exact hin

/-- Claim C2: the severity-resolution policy of `build_album_messages`:
any Crit message forces level Crit with exactly the Warn messages followed
by the Crit messages (Info dropped); otherwise any Warn message forces
level Warn with exactly the Warn messages; otherwise any Info message
forces level Info; otherwise the level is `none`, the message list is
empty, and such a group contributes no album block to the report. -/
theorem severity_resolution (files : List TrackRecord) :
    (crit_msgs files ≠ [] → (build_album_messages files).level = some "CRIT" ∧
      (build_album_messages files).messages = warn_msgs files ++ crit_msgs files) ∧
    (crit_msgs files = [] → warn_msgs files ≠ [] →
      (build_album_messages files).level = some "WARN" ∧
      (build_album_messages files).messages = warn_msgs files) ∧
    (crit_msgs files = [] → warn_msgs files = [] → info_msgs files ≠ [] →
      (build_album_messages files).level = some "INFO" ∧
      (build_album_messages files).messages = info_msgs files) ∧
    (crit_msgs files = [] → warn_msgs files = [] → info_msgs files = [] →
      (build_album_messages files).level = none ∧
      (build_album_messages files).messages = []) ∧
    (∀ per_album ordered, (album_blocks_of per_album ordered).length =
      (ordered.filter (fun kg => (build_album_messages kg.2).level ≠ none)).length) := by
  refine ⟨?_, ?_, ?_, ?_, ?_⟩
  · intro h
    constructor <;> simp [build_album_messages, h]
  · intro h1 h2
    constructor <;> simp [build_album_messages, h1, h2]
  · intro h1 h2 h3
    constructor <;> simp [build_album_messages, h1, h2, h3]
  · intro h1 h2 h3
    constructor <;> simp [build_album_messages, h1, h2, h3]
  · intro per_album ordered
    induction ordered with
    | nil => rfl
    | cons kg rest ih =>
      simp only [album_blocks_of, computed_per_album, List.map_cons, List.filterMap_cons,
        List.filter_cons] at ih ⊢
      cases h : (build_album_messages kg.2).level with
      | none => simpa [h] using ih
      | some lvl => simpa [h] using ih

/-- Witness for C2 on a one-record group with a Crit condition. -/
theorem severity_resolution_witness :
    crit_msgs [mp3NoLenRec] ≠ [] ∧
    (build_album_messages [mp3NoLenRec]).level = some "CRIT" ∧
    (build_album_messages [mp3NoLenRec]).messages =
      warn_msgs [mp3NoLenRec] ++ crit_msgs [mp3NoLenRec] :=
  ⟨by decide, ((severity_resolution [mp3NoLenRec]).1 (by decide)).1,
    ((severity_resolution [mp3NoLenRec]).1 (by decide)).2⟩

/-- Counterexample to claim C3: a group with exactly one duplicate group
(shown) and one singleton hash group still gets the summary sentence,
although no duplicate group beyond those shown exists; the remaining count
subtracts the shown count from the number of all hash groups, singletons
included. -/
theorem dup_summary_counterexample :
    (duplicate_groups cexDupFiles).length = 1 ∧
    "There are 1 more duplicate group(s) not shown." ∈ dup_msgs cexDupFiles := by
  decide

/-- Claim C3 as amended: for a group with at least one duplicate group, at
most three representative sentences are shown (first-seen order), and the
single summary sentence is appended iff the number of all content-hash
groups (duplicates and singletons alike) exceeds the number shown, stating
that difference. -/
theorem dup_msgs_spec (files : List TrackRecord) (h : duplicate_groups files ≠ []) :
    dup_msgs files =
      ((duplicate_groups files).take 3).map dup_sentence ++
      (if ((duplicate_groups files).take 3).length < (all_hash_groups files).length then
        ["There are " ++
          toString ((all_hash_groups files).length - ((duplicate_groups files).take 3).length) ++
          " more duplicate group(s) not shown."]
      else []) ∧
    ((duplicate_groups files).take 3).length ≤ 3 := by
  constructor
  · simp [dup_msgs, h]
    split_ifs <;> simp
  · rw [List.length_take]
    omega

/-- Witness for the amended C3 on the concrete duplicate group. -/
theorem dup_msgs_spec_witness :
    duplicate_groups cexDupFiles ≠ [] ∧
    ((duplicate_groups cexDupFiles).take 3).length ≤ 3 :=
  ⟨by decide, (dup_msgs_spec cexDupFiles (by decide)).2⟩

/-- Counterexample to claim C4: a record tagged with the `mp3_unreadable`
decode-error variant carries no container field, so it does not trigger the
unreadable-MP3s rule; a group consisting of it alone resolves to severity
`none`, not Crit. -/
theorem mp3_unreadable_counterexample :
    mp3ErrRec.err = some "mp3_unreadable" ∧
    crit_msgs [mp3ErrRec] = [] ∧
    (build_album_messages [mp3ErrRec]).level = none := by
  decide

/-- Claim C4 as amended: the Crit rule fires iff some record has container
`"mp3"` and is either tagged `mp3_unreadable` or lacks a duration; it then
forces level Crit and its message, last in the list, states the count of
affected files.  Records the adapter tags with a decode-error variant carry
no container field, so they never satisfy the trigger. -/
theorem crit_rule_spec (files : List TrackRecord) :
    (crit_msgs files ≠ [] ↔ ∃ fi ∈ files, fi.container = some "mp3" ∧
      (fi.err = some "mp3_unreadable" ∨ fi.length_s = none)) ∧
    (crit_msgs files ≠ [] → (build_album_messages files).level = some "CRIT" ∧
      (build_album_messages files).messages.getLast? =
        some (toString (crit_count files) ++ " MP3 file(s) appear unreadable or invalid.")) ∧
    (∀ path f, (to_uniform_dict path f).err ≠ none →
      (to_uniform_dict path f).container = none) := by
  refine ⟨?_, ?_, ?_⟩
  · have hcc : crit_count files ≠ 0 ↔ ∃ fi ∈ files, fi.container = some "mp3" ∧
        (fi.err = some "mp3_unreadable" ∨ fi.length_s = none) := by
      unfold crit_count
      rw [Ne, List.length_eq_zero, List.filter_eq_nil_iff]
      push_neg
      simp
    constructor
    · intro h
      have h0 : crit_count files ≠ 0 := by
        intro h0
        simp [crit_msgs, h0] at h
      exact hcc.mp h0
    · intro h
      have h0 : crit_count files ≠ 0 := hcc.mpr h
      simp [crit_msgs, h0]
  · intro h
    have h0 : crit_count files ≠ 0 := by
      intro h0
      simp [crit_msgs, h0] at h
    have hcm : crit_msgs files =
        [toString (crit_count files) ++ " MP3 file(s) appear unreadable or invalid."] := by
      simp [crit_msgs, h0]
    constructor
    · simp [build_album_messages, h]
    · have hmsg : (build_album_messages files).messages = warn_msgs files ++ crit_msgs files := by
        simp [build_album_messages, h]
      rw [hmsg, hcm]
      exact List.getLast?_concat _
  · intro path f h
    cases hd : f.decode <;> simp [to_uniform_dict, errRecord, hd] at h ⊢

/-- Witness for the amended C4 on a decoded MP3 without a duration. -/
theorem crit_rule_spec_witness :
    crit_msgs [mp3NoLenRec] ≠ [] ∧ (build_album_messages [mp3NoLenRec]).level = some "CRIT" :=
  ⟨by decide, ((crit_rule_spec [mp3NoLenRec]).2.1 (by decide)).1⟩

/-- Counterexample to claim C5: the report's total size figure is the sum
over recognized records only; the 100 bytes of the error-tagged record are
not included. -/
theorem error_size_counterexample :
    sizeErrRec.err ≠ none ∧ sizeErrRec.size_bytes = 100 ∧
    report_total_size_bytes cinfos = 50 := by
  decide

/-- Claim C5 as amended: error-tagged records are excluded from album
diagnostics (every group the report diagnoses contains only error-free
records) and from the total size figure, which exactly misses the error
records' bytes; size and content hash are nevertheless computed and stored
on error records by the adapter. -/
theorem error_records_excluded (infos : List TrackRecord) :
    (∀ k g, (k, g) ∈ group_by_album (recognized_files infos) → ∀ r ∈ g, r.err = none) ∧
    (report_total_size_bytes infos +
        ((infos.filter (fun fi => fi.err ≠ none)).map (fun fi => fi.size_bytes)).sum =
      (infos.map (fun fi => fi.size_bytes)).sum) ∧
    (∀ path f, (to_uniform_dict path f).err ≠ none →
      (to_uniform_dict path f).size_bytes = f.size_bytes ∧
      (to_uniform_dict path f).content_hash = f.content_hash) := by
  refine ⟨?_, ?_, ?_⟩
  · intro k g hg r hr
    have hmem : r ∈ recognized_files infos := mem_group_by_album hg hr
    simpa using (List.mem_filter.mp hmem).2
  · exact sum_partition_by_err infos
  · intro path f h
    cases hd : f.decode <;> simp [to_uniform_dict, errRecord, hd] at h ⊢

/-- Witness for the amended C5 on a two-record scan. -/
theorem error_records_excluded_witness :
    ("lib", [sizeOkRec]) ∈ group_by_album (recognized_files cinfos) ∧
    sizeOkRec ∈ [sizeOkRec] ∧ sizeOkRec.err = none :=
  ⟨by decide, by decide,
    (error_records_excluded cinfos).1 "lib" [sizeOkRec] (by decide) sizeOkRec (by decide)⟩

/-- Claim C6: the pre-pass candidate count and the walker's records are
exactly the depth-filtered eligible files (directory depth within the
bound, supported extension); consequently a file inside a directory nested
beyond the bound — in particular at exactly depth `max_depth + 1` —
contributes to neither the candidate count nor the scan results. -/
theorem walker_depth_bound (root : String) (max_depth : ℕ) (dbg : Bool) (t : FsTree) :
    scan_count_total_candidates max_depth t =
      ((files_with_depth root 0 t).filter (withinAndEligible max_depth)).length ∧
    walk_files root 0 max_depth t =
      ((files_with_depth root 0 t).filter (withinAndEligible max_depth)).map
        (fun e => to_uniform_dict e.2.1 e.2.2) ∧
    (∀ d p f, (d, p, f) ∈ files_with_depth root 0 t → max_depth < d →
      ((files_with_depth root 0 t).map (fun e => e.2.1)).Nodup →
      ∀ r ∈ (scan_folder_for_audio_recursive root max_depth dbg t).1,
        r.path ≠ p) := by
  have heq := walk_files_eq_spec root 0 max_depth (Nat.zero_le _) t
  refine ⟨?_, heq, ?_⟩
  · rw [scan_count_total_candidates, count_eq_walk_len root 0 max_depth t, heq,
      List.length_map]
  · intro d p f hmem hgt hnodup r hr hrp
    have hr2 : r ∈ walk_files root 0 max_depth t :=
      ((sortByKey_perm _ _).mem_iff).mp hr
    rw [heq] at hr2
    obtain ⟨e, he, hre⟩ := List.mem_map.mp hr2
    have hefw : e ∈ files_with_depth root 0 t := (List.mem_filter.mp he).1
    have hele : e.1 ≤ max_depth := by
      have := (List.mem_filter.mp he).2
      simp only [withinAndEligible, Bool.and_eq_true, decide_eq_true_eq] at this
      exact this.1
    have hpath : e.2.1 = p := by
      rw [← hrp, ← hre, to_uniform_dict_path]
    have heq2 : e = (d, p, f) := by
      exact List.inj_on_of_nodup_map hnodup hefw hmem (by simpa using hpath)
    rw [heq2] at hele
    exact absurd hele (Nat.not_le_of_lt hgt)

/-- Witness for C6: in `tDepth` bounded at depth 1, the deep file's path
appears in the enumeration at depth 2 while the scan keeps only the shallow
record, whose path differs. -/
theorem walker_depth_bound_witness :
    (2, "r/d1/d2/deep.mp3", fDeep) ∈ files_with_depth "r" 0 tDepth ∧
    shallowRec ∈ (scan_folder_for_audio_recursive "r" 1 false tDepth).1 ∧
    shallowRec.path ≠ "r/d1/d2/deep.mp3" :=
  ⟨by decide, by decide,
    (walker_depth_bound "r" 1 false tDepth).2.2 2 "r/d1/d2/deep.mp3" fDeep
      (by decide) (by decide) (by decide) shallowRec (by decide)⟩

/-- Claim C9: a scan of a tree without a single recognized-extension file
returns exactly the fixed sentence and nothing else. -/
theorem no_match_fixed_sentence (root : String) (dbg : Bool) (max_depth : ℕ)
    (pa nqs : Bool) (t : FsTree)
    (h : ∀ e ∈ files_with_depth root 0 t, should_consider e.2.2.name = false) :
    get_output root dbg max_depth pa nqs t =
      "Couldn\x27t find any music files with current parameters.\n" := by
  have hnil : (files_with_depth root 0 t).filter (withinAndEligible max_depth) = [] := by
    apply List.filter_eq_nil_iff.mpr
    intro e he
    simp [withinAndEligible, h e he]
  have hwalk : walk_files root 0 max_depth t = [] := by
    rw [walk_files_eq_spec root 0 max_depth (Nat.zero_le _) t, hnil]
    rfl
  simp [get_output, scan_folder_for_audio_recursive, hwalk, scanSort, sortByKey,
    reportFromRecords, recognized_files]

/-- Witness for C9 on a directory holding only a text file. -/
theorem no_match_fixed_sentence_witness :
    get_output "r" false 5 false false tTxt =
      "Couldn\x27t find any music files with current parameters.\n" :=
  no_match_fixed_sentence "r" false 5 false false tTxt (by decide)

/-- Claim C10: when every scanned record is error-tagged, the entry
function returns the same fixed no-music-files sentence as for an empty
scan: no error section, album block, or health score is produced. -/
theorem all_errors_fixed_sentence (root : String) (dbg : Bool) (max_depth : ℕ)
    (pa nqs : Bool) (t : FsTree)
    (h : ∀ r ∈ (scan_folder_for_audio_recursive root max_depth dbg t).1, r.err ≠ none) :
    get_output root dbg max_depth pa nqs t =
      "Couldn\x27t find any music files with current parameters.\n" := by
  have hrec : recognized_files (scan_folder_for_audio_recursive root max_depth dbg t).1 = [] := by
    apply List.filter_eq_nil_iff.mpr
    intro r hr
    simp [h r hr]
  simp [get_output, reportFromRecords, hrec]

/-- Witness for C10 on a directory holding only an unreadable MP3. -/
theorem all_errors_fixed_sentence_witness :
    get_output "r" false 5 false false tErr =
      "Couldn\x27t find any music files with current parameters.\n" :=
  all_errors_fixed_sentence "r" false 5 false false tErr (by decide)

theorem strCmpL_eq_iff : ∀ a b : List Char, strCmpL a b = .eq ↔ a = b
  | [], [] => by simp [strCmpL]
  | [], _ :: _ => by simp [strCmpL]
  | _ :: _, [] => by simp [strCmpL]
  | a :: as, b :: bs => by
    simp only [strCmpL]
    by_cases h1 : a < b
    · rw [if_pos h1]
      constructor
      · intro hh; cases hh
      · intro hh
        rw [List.cons.injEq] at hh
        exact absurd hh.1 (ne_of_lt h1)
    · by_cases h2 : b < a
      · rw [if_neg h1, if_pos h2]
        constructor
        · intro hh; cases hh
        · intro hh
          rw [List.cons.injEq] at hh
          exact absurd hh.1.symm (ne_of_lt h2)
      · have hab : a = b := le_antisymm (le_of_not_lt h2) (le_of_not_lt h1)
        rw [if_neg h1, if_neg h2]
        simp [hab, strCmpL_eq_iff as bs]

theorem strCmpL_lt_gt : ∀ a b : List Char, strCmpL a b = .lt ↔ strCmpL b a = .gt
  | [], [] => by simp [strCmpL]
  | [], _ :: _ => by simp [strCmpL]
  | _ :: _, [] => by simp [strCmpL]
  | a :: as, b :: bs => by
    simp only [strCmpL]
    by_cases h1 : a < b
    · rw [if_pos h1, if_neg (lt_asymm h1), if_pos h1]
      simp
    · by_cases h2 : b < a
      · rw [if_neg h1, if_pos h2, if_pos h2]
        simp
      · rw [if_neg h1, if_neg h2, if_neg h2, if_neg h1]
        exact strCmpL_lt_gt as bs

theorem strCmpL_trans_lt : ∀ a b c : List Char,
    strCmpL a b = .lt → strCmpL b c ≠ .gt → strCmpL a c = .lt
  | [], [], _ => by simp [strCmpL]
  | [], _ :: _, [] => by simp [strCmpL]
  | [], _ :: _, _ :: _ => by simp [strCmpL]
  | _ :: _, [], _ => by simp [strCmpL]
  | _ :: _, _ :: _, [] => by simp [strCmpL]
  | a :: as, b :: bs, c :: cs => by
    intro h1 h2
    simp only [strCmpL] at h1 h2 ⊢
    by_cases hab : a < b
    · by_cases hbc : b < c
      · rw [if_pos (lt_trans hab hbc)]
      · by_cases hcb : c < b
        · rw [if_neg hbc, if_pos hcb] at h2
          exact absurd rfl h2
        · have hbc2 : b = c := le_antisymm (le_of_not_lt hcb) (le_of_not_lt hbc)
          rw [if_pos (hbc2 ▸ hab)]
    · by_cases hba : b < a
      · rw [if_neg hab, if_pos hba] at h1
        cases h1
      · have hab2 : a = b := le_antisymm (le_of_not_lt hba) (le_of_not_lt hab)
        rw [if_neg hab, if_neg hba] at h1
        by_cases hbc : b < c
        · rw [if_pos (hab2 ▸ hbc)]
        · by_cases hcb : c < b
          · rw [if_neg hbc, if_pos hcb] at h2
            exact absurd rfl h2
          · have hbc2 : b = c := le_antisymm (le_of_not_lt hcb) (le_of_not_lt hbc)
            rw [if_neg hbc, if_neg hcb] at h2
            have hac : ¬ a < c := by rw [hab2, hbc2]; exact lt_irrefl c
            have hca : ¬ c < a := by rw [hab2, hbc2]; exact lt_irrefl c
            rw [if_neg hac, if_neg hca]
            exact strCmpL_trans_lt as bs cs h1 h2

theorem strLtB_true_iff {a b : String} : strLtB a b = true ↔ strCmpL a.data b.data = .lt := by
  unfold strLtB
  cases strCmpL a.data b.data <;> simp

theorem strLtB_false_iff {a b : String} : strLtB a b = false ↔ strCmpL a.data b.data ≠ .lt := by
  unfold strLtB
  cases strCmpL a.data b.data <;> simp

theorem strLtB_asymm {a b : String} (h : strLtB a b = true) : strLtB b a = false := by
  have hg := (strCmpL_lt_gt a.data b.data).mp (strLtB_true_iff.mp h)
  exact strLtB_false_iff.mpr (by simp [hg])

theorem strLtB_trans_not {a b c : String} (h1 : strLtB a b = true) (h2 : strLtB c b = false) :
    strLtB a c = true := by
  have h1l := strLtB_true_iff.mp h1
  have h2n := strLtB_false_iff.mp h2
  have hbc : strCmpL b.data c.data ≠ .gt := fun hg => h2n ((strCmpL_lt_gt c.data b.data).mpr hg)
  exact strLtB_true_iff.mpr (strCmpL_trans_lt a.data b.data c.data h1l hbc)

theorem strLtB_antisymm_eq {a b : String} (h1 : strLtB a b = false) (h2 : strLtB b a = false) :
    a = b := by
  have hne1 := strLtB_false_iff.mp h1
  have hne2 : strCmpL a.data b.data ≠ .gt := by
    intro hh
    exact (strLtB_false_iff.mp h2) ((strCmpL_lt_gt b.data a.data).mpr hh)
  have heq : strCmpL a.data b.data = .eq := by
    cases hc : strCmpL a.data b.data
    · exact absurd hc hne1
    · rfl
    · exact absurd hc hne2
  have hdata : a.data = b.data := (strCmpL_eq_iff a.data b.data).mp heq
  exact congrArg String.mk hdata

/-- The "may precede" relation of the stable sort: the key of the later
element is not strictly below the key of the earlier one. -/
def keyLe {α : Type} (k : α → String) (x y : α) : Prop := strLtB (k y) (k x) = false

theorem pairwise_insertByKey {α : Type} (k : α → String) (x : α) :
    ∀ {l : List α}, l.Pairwise (keyLe k) → (insertByKey k x l).Pairwise (keyLe k)
  | [], _ => by simp [insertByKey, List.pairwise_cons]
  | y :: ys, h => by
    obtain ⟨hy, hys⟩ := List.pairwise_cons.mp h
    unfold insertByKey
    split_ifs with hlt
    · refine List.pairwise_cons.mpr ⟨?_, h⟩
      intro z hz
      rcases List.mem_cons.mp hz with rfl | hzys
      · exact strLtB_asymm hlt
      · unfold keyLe
        by_cases hc : strLtB (k z) (k x) = true
        · have hyx : strLtB (k y) (k x) = false := strLtB_asymm hlt
          have : strLtB (k z) (k y) = true := strLtB_trans_not hc hyx
          have hzy := hy z hzys
          unfold keyLe at hzy
          rw [hzy] at this
          cases this
        · exact Bool.eq_false_iff.mpr hc
    · refine List.pairwise_cons.mpr ⟨?_, pairwise_insertByKey k x hys⟩
      intro z hz
      have hz2 : z ∈ x :: ys := (insertByKey_perm k x ys).mem_iff.mp hz
      rcases List.mem_cons.mp hz2 with rfl | hzys
      · exact Bool.eq_false_iff.mpr hlt
      · exact hy z hzys

theorem pairwise_foldl_insertByKey {α : Type} (k : α → String) :
    ∀ (l acc : List α), acc.Pairwise (keyLe k) →
      (l.foldl (fun a x => insertByKey k x a) acc).Pairwise (keyLe k)
  | [], _, hacc => hacc
  | x :: xs, acc, hacc =>
    pairwise_foldl_insertByKey k xs (insertByKey k x acc) (pairwise_insertByKey k x hacc)

theorem pairwise_sortByKey {α : Type} (k : α → String) (l : List α) :
    (sortByKey k l).Pairwise (keyLe k) :=
  pairwise_foldl_insertByKey k l [] List.Pairwise.nil

theorem eq_of_perm_of_pairwise_of_nodupkeys {α : Type} (k : α → String) :
    ∀ (l1 l2 : List α), l1.Perm l2 → l1.Pairwise (keyLe k) → l2.Pairwise (keyLe k) →
      (l1.map k).Nodup → l1 = l2
  | [], l2, hp, _, _, _ => hp.nil_eq
  | x :: l1, l2, hp, hs1, hs2, hnd => by
    cases l2 with
    | nil => cases hp.symm.nil_eq
    | cons y l2 =>
      by_cases hxy : x = y
      · subst hxy
        obtain ⟨_, h1⟩ := List.pairwise_cons.mp hs1
        obtain ⟨_, h2⟩ := List.pairwise_cons.mp hs2
        rw [List.map_cons] at hnd
        obtain ⟨_, hnd2⟩ := List.nodup_cons.mp hnd
        rw [eq_of_perm_of_pairwise_of_nodupkeys k l1 l2 hp.cons_inv h1 h2 hnd2]
      · exfalso
        have hxmem : x ∈ y :: l2 := hp.mem_iff.mp (List.mem_cons_self x l1)
        have hymem : y ∈ x :: l1 := hp.symm.mem_iff.mp (List.mem_cons_self y l2)
        have hx2 : x ∈ l2 := by
          rcases List.mem_cons.mp hxmem with h | h
          · exact absurd h hxy
          · exact h
        have hy1 : y ∈ l1 := by
          rcases List.mem_cons.mp hymem with h | h
          · exact absurd h.symm hxy
          · exact h
        have hkyx : keyLe k y x := (List.pairwise_cons.mp hs2).1 x hx2
        have hkxy : keyLe k x y := (List.pairwise_cons.mp hs1).1 y hy1
        unfold keyLe at hkyx hkxy
        have hk : k x = k y := strLtB_antisymm_eq hkyx hkxy
        have hmem : k x ∈ l1.map k := List.mem_map.mpr ⟨y, hy1, hk.symm⟩
        rw [List.map_cons] at hnd
        exact (List.nodup_cons.mp hnd).1 hmem

theorem sortByKey_eq_of_perm {α : Type} (k : α → String) {l1 l2 : List α}
    (hp : l1.Perm l2) (hnd : (l1.map k).Nodup) : sortByKey k l1 = sortByKey k l2 := by
  apply eq_of_perm_of_pairwise_of_nodupkeys k
  · exact (sortByKey_perm k l1).trans (hp.trans (sortByKey_perm k l2).symm)
  · exact pairwise_sortByKey k l1
  · exact pairwise_sortByKey k l2
  · have hpm : ((sortByKey k l1).map k).Perm (l1.map k) := (sortByKey_perm k l1).map k
    exact hpm.nodup_iff.mpr hnd

theorem reportFromRecords_debug_off (root : String) (pa nqs : Bool)
    (infos : List TrackRecord) (d1 d2 : List String) :
    reportFromRecords root false pa nqs infos d1 =
      reportFromRecords root false pa nqs infos d2 := by
  simp [reportFromRecords]

set_option maxRecDepth 2000 in
set_option maxHeartbeats 1000000 in
/-- Counterexample to claim C7: two listings of the same directory contents
(one file-order swap, the records of one scan a permutation of the other's)
produce different report texts, because the two files' names coincide after
case folding and the stable sort then preserves listing order, changing the
representative of their duplicate group. -/
theorem scan_order_counterexample :
    (walk_files "lib" 0 5 tOrder1).Perm (walk_files "lib" 0 5 tOrder2) ∧
    get_output "lib" false 5 false false tOrder1 ≠
      get_output "lib" false 5 false false tOrder2 := by
  constructor
  · have h1 : walk_files "lib" 0 5 tOrder1 =
        [to_uniform_dict "lib/A.mp3" fUpper, to_uniform_dict "lib/a.mp3" fLower] := rfl
    have h2 : walk_files "lib" 0 5 tOrder2 =
        [to_uniform_dict "lib/a.mp3" fLower, to_uniform_dict "lib/A.mp3" fUpper] := rfl
    rw [h1, h2]
    exact List.Perm.swap _ _ _
  · with_unfolding_all decide

/-- Claim C7 as amended: with the debug trace off, the report text is a
function of the scanned record multiset alone — any two traversal orders
yielding permuted record lists give byte-identical reports — provided the
case-folded file names are pairwise distinct; the final stable sort by
case-folded name erases the traversal order. -/
theorem report_traversal_order_invariant (root : String) (pa nqs : Bool)
    (recs1 recs2 : List TrackRecord) (d1 d2 : List String)
    (hperm : recs1.Perm recs2)
    (hkeys : (recs1.map (fun r => pyLower r.file_name)).Nodup) :
    reportFromRecords root false pa nqs (scanSort recs1) d1 =
      reportFromRecords root false pa nqs (scanSort recs2) d2 := by
  have hs : scanSort recs1 = scanSort recs2 := sortByKey_eq_of_perm _ hperm hkeys
  rw [hs]
  exact reportFromRecords_debug_off root pa nqs (scanSort recs2) d1 d2

set_option maxRecDepth 2000 in
set_option maxHeartbeats 1000000 in
/-- Witness for the amended C7: two distinctly named records in either
order, with different debug-line inputs, give the same report. -/
theorem report_traversal_order_invariant_witness :
    reportFromRecords "lib" false false false (scanSort [recX, recY]) [] =
      reportFromRecords "lib" false false false (scanSort [recY, recX])
        ["[debug] entering: lib (depth=0)"] :=
  report_traversal_order_invariant "lib" false false [recX, recY] [recY, recX]
    [] ["[debug] entering: lib (depth=0)"]
    (List.Perm.swap recY recX []) (by decide)

end AMA
